import Mathlib

/-!
Verification of the eventsource hub (server.go).

The hub is a single actor (`Server.run`) owning the channel→subscriber-set
map, the channel→repository map, the dead-channel markers and the global
dead flag.  We embed the actor's state and each `select` case of the run
loop as a function on that state.  Go channel operations that can panic
(close of a closed channel, send on a closed channel) or block the actor
forever are modelled by `Option`: `none` is a fault (panic or permanent
deadlock of the actor), `some st` is normal completion in state `st`.
-/

namespace Eventsource

/-- An Event as the hub sees it: the Event interface exposes the Id(),
Event() and Data() strings. -/
structure Event where
  id : String
  event : String
  data : String
deriving DecidableEq, Repr

/-- A Go channel used as a bounded queue: the buffer of items sent but not
yet consumed, the capacity it was made with, and whether it has been
closed. -/
structure GoChan (α : Type) where
  buf : List α
  cap : Nat
  closed : Bool
deriving DecidableEq, Repr

/-- Blocking send `ch <- x`: panics when the channel is closed; otherwise
the sender suspends until the item is accepted (the consumer drains the
buffer concurrently), which we record by appending the item. -/
def GoChan.send {α : Type} (q : GoChan α) (x : α) : Option (GoChan α) :=
  if q.closed then none else some { q with buf := q.buf ++ [x] }

/-- `close(ch)`: panics when the channel is already closed. -/
def GoChan.mkClosed {α : Type} (q : GoChan α) : Option (GoChan α) :=
  if q.closed then none else some { q with closed := true }

/-- Outcome of a non-blocking send `select { case ch <- x: ... default: ... }`:
the send case of a `select` panics on a closed channel, falls through to
the default branch when the buffer is full, and otherwise delivers. -/
inductive SendResult (α : Type) where
  | sent : GoChan α → SendResult α
  | full : SendResult α
  | panicked : SendResult α

/-- Non-blocking send with a default branch. -/
def GoChan.trySend {α : Type} (q : GoChan α) (x : α) : SendResult α :=
  if q.closed then .panicked
  else if q.buf.length < q.cap then .sent { q with buf := q.buf ++ [x] }
  else .full

/-- The `subscription` struct: channel name, last-seen event id, the event
queue `out` and the comment queue `cout`. -/
structure subscription where
  channel : String
  lastEventId : String
  out : GoChan Event
  cout : GoChan String
deriving DecidableEq, Repr

/-- `subscription.destroy`: `close(s.out); close(s.cout)`.  Panics when a
queue is already closed. -/
def subscription.destroy (s : subscription) : Option subscription :=
  match s.out.mkClosed with
  | none => none
  | some q =>
    match s.cout.mkClosed with
    | none => none
    | some q2 => some { s with out := q, cout := q2 }

/-- A Repository, reduced to its one capability:
`Replay(channel, lastEventId)` yields a finite ordered sequence of events. -/
def Repository : Type := String → String → List Event

/-- Go identifies subscriptions by pointer; we name the allocations. -/
abbrev SubId := Nat

/-- Pointwise update of a map modelled as a function. -/
def upd {κ β : Type} [DecidableEq κ] (f : κ → β) (k : κ) (v : β) : κ → β :=
  fun x => if x = k then v else f x

/-- The hub's state: the `Server` struct's fields that carry meaning for the
hub (`ReplayAll`, `BufferSize`, `deadChannels`, `dead`), the run loop's
local maps `subs` and `repos`, the contents of the capacity-2 `unregister`
channel, plus allocation bookkeeping (`heap`, `nextId`) standing in for Go's
pointer identity and `channelKeys` recording the keys ever created in the
`subs` map (Go never deletes an outer key, so the key set only grows). -/
structure Server where
  ReplayAll : Bool
  BufferSize : Nat
  repos : String → Option Repository
  subs : String → List SubId
  heap : SubId → Option subscription
  nextId : SubId
  unregQ : List SubId
  channelKeys : List String
  deadChannels : String → Bool
  dead : Bool

/-- `NewServer` followed by the user optionally assigning the public
`ReplayAll` / `BufferSize` fields before use. -/
def mkServer (replayAll : Bool) (bufferSize : Nat) : Server :=
  { ReplayAll := replayAll
    BufferSize := bufferSize
    repos := fun _ => none
    subs := fun _ => []
    heap := fun _ => none
    nextId := 0
    unregQ := []
    channelKeys := []
    deadChannels := fun _ => false
    dead := false }

/-- `NewServer()` with the defaults: `ReplayAll` false, `BufferSize` 128. -/
def NewServer : Server := mkServer false 128

/-- run-loop case `reg := <-srv.registrations`:
`repos[reg.channel] = reg.repository`. -/
def runRegister (st : Server) (channel : String) (repo : Repository) : Server :=
  { st with repos := upd st.repos channel (some repo) }

/-- run-loop case `sub := <-srv.unregister`:
`sub.destroy(); delete(subs[sub.channel], sub)`.  A delete on a missing
inner map is a no-op; a second destroy of the same subscription panics. -/
def runUnregister (st : Server) (id : SubId) : Option Server :=
  match st.heap id with
  | none => none
  | some sub =>
    match sub.destroy with
    | none => none
    | some sub2 =>
      some { st with
              heap := upd st.heap id (some sub2)
              subs := upd st.subs sub.channel
                        ((st.subs sub.channel).filter (fun j => j != id)) }

/-- The actor draining one message from the `unregister` channel buffer.
After `Close` the actor has returned, so nothing drains the buffer. -/
def runUnregisterStep (st : Server) : Option Server :=
  if st.dead then none
  else
    match st.unregQ with
    | [] => none
    | id :: rest => runUnregister { st with unregQ := rest } id

/-- One delivery attempt of the publish fan-out:
`select { case s.out <- pub.event: default: srv.unregister <- s }`.
The `unregister` channel has capacity 2 and the actor itself is its only
receiver, so when its buffer is full this send blocks the actor forever:
a permanent deadlock, modelled as a fault. -/
def deliverEvent (st : Server) (id : SubId) (ev : Event) : Option Server :=
  match st.heap id with
  | none => none
  | some sub =>
    match sub.out.trySend ev with
    | .panicked => none
    | .sent q => some { st with heap := upd st.heap id (some { sub with out := q }) }
    | .full =>
      if st.unregQ.length < 2 then some { st with unregQ := st.unregQ ++ [id] }
      else none

/-- `for s := range subs[c]` of the publish case. -/
def deliverEventList (st : Server) (ids : List SubId) (ev : Event) : Option Server :=
  match ids with
  | [] => some st
  | id :: rest =>
    match deliverEvent st id ev with
    | none => none
    | some st2 => deliverEventList st2 rest ev

/-- run-loop case `pub := <-srv.pub`: fan out to every subscriber of every
named channel. -/
def runPublish (st : Server) (channels : List String) (ev : Event) : Option Server :=
  match channels with
  | [] => some st
  | c :: rest =>
    match deliverEventList st (st.subs c) ev with
    | none => none
    | some st2 => runPublish st2 rest ev

/-- One delivery attempt of the comment fan-out, targeting `s.cout`. -/
def deliverComment (st : Server) (id : SubId) (m : String) : Option Server :=
  match st.heap id with
  | none => none
  | some sub =>
    match sub.cout.trySend m with
    | .panicked => none
    | .sent q => some { st with heap := upd st.heap id (some { sub with cout := q }) }
    | .full =>
      if st.unregQ.length < 2 then some { st with unregQ := st.unregQ ++ [id] }
      else none

/-- `for s := range subs[c]` of the comment case. -/
def deliverCommentList (st : Server) (ids : List SubId) (m : String) : Option Server :=
  match ids with
  | [] => some st
  | id :: rest =>
    match deliverComment st id m with
    | none => none
    | some st2 => deliverCommentList st2 rest m

/-- run-loop case `cmt := <-srv.comments`. -/
def runComment (st : Server) (channels : List String) (m : String) : Option Server :=
  match channels with
  | [] => some st
  | c :: rest =>
    match deliverCommentList st (st.subs c) m with
    | none => none
    | some st2 => runComment st2 rest m

/-- `for s := range subs[die] { s.destroy(); delete(subs[die], s) }`
over a snapshot of the set. -/
def destroyList (st : Server) (die : String) (ids : List SubId) : Option Server :=
  match ids with
  | [] => some st
  | id :: rest =>
    match st.heap id with
    | none => none
    | some sub =>
      match sub.destroy with
      | none => none
      | some sub2 =>
        destroyList
          { st with
              heap := upd st.heap id (some sub2)
              subs := upd st.subs die ((st.subs die).filter (fun j => j != id)) }
          die rest

/-- run-loop case `die := <-srv.kill`: destroy and remove every subscriber
of the channel, then `srv.deadChannels[die] = true`. -/
def runKill (st : Server) (die : String) : Option Server :=
  match destroyList st die (st.subs die) with
  | none => none
  | some st2 => some { st2 with deadChannels := upd st2.deadChannels die true }

/-- `for s := range sub { s.destroy() }` of the quit case: destruction
without removal from the map (the map is about to be dropped). -/
def destroyOnly (st : Server) (ids : List SubId) : Option Server :=
  match ids with
  | [] => some st
  | id :: rest =>
    match st.heap id with
    | none => none
    | some sub =>
      match sub.destroy with
      | none => none
      | some sub2 => destroyOnly { st with heap := upd st.heap id (some sub2) } rest

/-- `for _, sub := range subs` of the quit case, iterating over the keys
ever created in the `subs` map. -/
def destroyChannels (st : Server) (cs : List String) : Option Server :=
  match cs with
  | [] => some st
  | c :: rest =>
    match destroyOnly st (st.subs c) with
    | none => none
    | some st2 => destroyChannels st2 rest

/-- run-loop case `<-srv.quit`: destroy every subscription of every
channel, close all the server's operation channels (represented by the
`dead` flag, which every public operation consults) and return. -/
def runQuit (st : Server) : Option Server :=
  match destroyChannels st st.channelKeys with
  | none => none
  | some st2 => some { st2 with dead := true }

/-- `Server.Register`: `srv.registrations <- ...`.  After `Close` the
registrations channel is closed, so the send panics. -/
def Register (st : Server) (channel : String) (repo : Repository) : Option Server :=
  if st.dead then none else some (runRegister st channel repo)

/-- `Server.Publish`: `srv.pub <- &outbound{channels, ev}` handed to the
actor.  After `Close` the pub channel is closed, so the send panics. -/
def Publish (st : Server) (channels : List String) (ev : Event) : Option Server :=
  if st.dead then none else runPublish st channels ev

/-- `Server.PublishComment`: `srv.comments <- &outComment{channels, m}`. -/
def PublishComment (st : Server) (channels : List String) (m : String) : Option Server :=
  if st.dead then none else runComment st channels m

/-- `Server.CloseChannel`: `srv.kill <- channel`. -/
def CloseChannel (st : Server) (channel : String) : Option Server :=
  if st.dead then none else runKill st channel

/-- `Server.Close`: `srv.quit <- true`.  A second `Close` sends on the
closed quit channel and panics. -/
def Close (st : Server) : Option Server :=
  if st.dead then none else runQuit st

/-- A connection handler's `srv.unregister <- sub`: the request is queued
on the capacity-2 buffered channel; a handler's send suspends until the
live actor drains it, so from the hub's view the request is appended.
After `Close` the unregister channel is closed, so the send panics. -/
def Unregister (st : Server) (id : SubId) : Option Server :=
  if st.dead then none else some { st with unregQ := st.unregQ ++ [id] }

/-- run-loop case `sub := <-srv.subs`: ensure the channel's inner map
exists (recording the key), add the subscription, and decide whether a
replay goroutine is spawned:
`if srv.ReplayAll || len(sub.lastEventId) > 0 { repo, ok := repos[...]; if ok { go replay(...) } }`. -/
def runSubs (st : Server) (id : SubId) (sub : subscription) : Server × Bool :=
  let keys := if st.channelKeys.contains sub.channel then st.channelKeys
              else sub.channel :: st.channelKeys
  let set := st.subs sub.channel
  let set2 := if set.contains id then set else set ++ [id]
  let st2 := { st with channelKeys := keys, subs := upd st.subs sub.channel set2 }
  let spawned := if st.ReplayAll = true ∨ sub.lastEventId.length > 0
                 then (st.repos sub.channel).isSome else false
  (st2, spawned)

/-- Outcome of the subscription-admission portion of `Server.Handler`. -/
inductive SubscribeOutcome where
  | deadHub : SubscribeOutcome
  | deadChannel : SubscribeOutcome
  | live : SubId → Bool → SubscribeOutcome
deriving DecidableEq, Repr

/-- The subscription-admission portion of `Server.Handler`: the dead-hub
and dead-channel checks, allocation of a subscription whose two queues have
capacity `srv.BufferSize`, and the hub's processing of `srv.subs <- sub`.
The `live` outcome carries the admitted subscription and whether a replay
task was spawned. -/
def Handler (st : Server) (channel : String) (lastEventId : String) :
    Server × SubscribeOutcome :=
  if st.dead then (st, .deadHub)
  else if st.deadChannels channel then (st, .deadChannel)
  else
    let sub : subscription :=
      { channel := channel
        lastEventId := lastEventId
        out := { buf := [], cap := st.BufferSize, closed := false }
        cout := { buf := [], cap := st.BufferSize, closed := false } }
    let id := st.nextId
    let st2 := { st with heap := upd st.heap id (some sub), nextId := id + 1 }
    let r := runSubs st2 id sub
    (r.1, .live id r.2)

/-- The body of `replay(repo, sub)` over the sequence already produced by
the repository: each event is sent blockingly into `sub.out`; a send on a
closed (destroyed) queue panics. -/
def replayLoop (sub : subscription) (evs : List Event) : Option subscription :=
  match evs with
  | [] => some sub
  | ev :: rest =>
    match sub.out.send ev with
    | none => none
    | some q => replayLoop { sub with out := q } rest

/-- `replay(repo, sub)`:
`for ev := range repo.Replay(sub.channel, sub.lastEventId) { sub.out <- ev }`. -/
def replay (repo : Repository) (sub : subscription) : Option subscription :=
  replayLoop sub (repo sub.channel sub.lastEventId)

/-- The hub states reachable through the public interface: construction
with any option values, then any serialized sequence of completed
operations (including the actor's draining of queued unregister
requests). -/
inductive Reachable : Server → Prop where
  | init (replayAll : Bool) (bufferSize : Nat) : Reachable (mkServer replayAll bufferSize)
  | register {st st2 : Server} {c : String} {r : Repository} :
      Reachable st → Register st c r = some st2 → Reachable st2
  | handler {st st2 : Server} {c lei : String} {o : SubscribeOutcome} :
      Reachable st → Handler st c lei = (st2, o) → Reachable st2
  | unregisterReq {st st2 : Server} {id : SubId} :
      Reachable st → Unregister st id = some st2 → Reachable st2
  | unregisterRun {st st2 : Server} :
      Reachable st → runUnregisterStep st = some st2 → Reachable st2
  | publish {st st2 : Server} {cs : List String} {ev : Event} :
      Reachable st → Publish st cs ev = some st2 → Reachable st2
  | comment {st st2 : Server} {cs : List String} {m : String} :
      Reachable st → PublishComment st cs m = some st2 → Reachable st2
  | closeChannel {st st2 : Server} {c : String} :
      Reachable st → CloseChannel st c = some st2 → Reachable st2
  | close {st st2 : Server} :
      Reachable st → Close st = some st2 → Reachable st2

/-! ### Basic lemmas about the embedded primitives -/

theorem upd_self {κ β : Type} [DecidableEq κ] (f : κ → β) (k : κ) (v : β) :
    upd f k v k = v := by
  simp [upd]

theorem upd_ne {κ β : Type} [DecidableEq κ] (f : κ → β) (k : κ) (v : β) {x : κ}
    (h : x ≠ k) : upd f k v x = f x := by
  simp [upd, h]

/-- The result of destroying a subscription: both queues closed, everything
else unchanged. -/
def closeSub (s : subscription) : subscription :=
  { s with out := { s.out with closed := true }, cout := { s.cout with closed := true } }

theorem destroy_open {s : subscription} (h1 : s.out.closed = false)
    (h2 : s.cout.closed = false) : s.destroy = some (closeSub s) := by
  simp [subscription.destroy, GoChan.mkClosed, h1, h2, closeSub]

theorem destroy_out_closed {s : subscription} (h : s.out.closed = true) :
    s.destroy = none := by
  simp [subscription.destroy, GoChan.mkClosed, h]

theorem destroy_some_shape {s s2 : subscription} (h : s.destroy = some s2) :
    s2 = closeSub s ∧ s.out.closed = false ∧ s.cout.closed = false := by
  by_cases h1 : s.out.closed = true
  · rw [destroy_out_closed h1] at h
    exact absurd h (by simp)
  · have h1' : s.out.closed = false := by simpa using h1
    by_cases h2 : s.cout.closed = true
    · simp [subscription.destroy, GoChan.mkClosed, h1', h2] at h
    · have h2' : s.cout.closed = false := by simpa using h2
      rw [destroy_open h1' h2'] at h
      exact ⟨(Option.some_injective _ h).symm, h1', h2'⟩

/-- The observable part of a subscription that the fan-out never changes:
its channel and the closed flags of its two queues. -/
def shape (s : subscription) : String × Bool × Bool :=
  (s.channel, s.out.closed, s.cout.closed)

theorem trySend_sent {α : Type} {q : GoChan α} {x : α} {q2 : GoChan α}
    (h : q.trySend x = .sent q2) : q2.closed = q.closed ∧ q2.cap = q.cap := by
  unfold GoChan.trySend at h
  split at h
  · exact absurd h (by simp)
  · split at h
    · cases h
      exact ⟨rfl, rfl⟩
    · exact absurd h (by simp)

theorem trySend_not_panicked {α : Type} {q : GoChan α} {x : α}
    (h : q.closed = false) : q.trySend x ≠ .panicked := by
  unfold GoChan.trySend
  rw [h]
  by_cases h2 : q.buf.length < q.cap
  · simp [h2]
  · simp [h2]

/-! ### Frame lemmas for the publish / comment fan-out -/

/-- What one completed fan-out pass may and may not change: the hub maps,
markers and counters are untouched; only the heap entries of the attempted
ids may change, and even those keep their channel and closed flags. -/
structure FanoutFrame (st st2 : Server) (ids : List SubId) : Prop where
  subs : st2.subs = st.subs
  repos : st2.repos = st.repos
  deadCh : st2.deadChannels = st.deadChannels
  dead : st2.dead = st.dead
  nextId : st2.nextId = st.nextId
  channelKeys : st2.channelKeys = st.channelKeys
  replayAll : st2.ReplayAll = st.ReplayAll
  bufferSize : st2.BufferSize = st.BufferSize
  heapOut : ∀ j, j ∉ ids → st2.heap j = st.heap j
  heapShape : ∀ j, Option.map shape (st2.heap j) = Option.map shape (st.heap j)

theorem FanoutFrame.refl (st : Server) (ids : List SubId) : FanoutFrame st st ids :=
  ⟨rfl, rfl, rfl, rfl, rfl, rfl, rfl, rfl, fun _ _ => rfl, fun _ => rfl⟩

theorem FanoutFrame.comp {st st1 st2 : Server} {ids1 ids2 : List SubId}
    (h1 : FanoutFrame st st1 ids1) (h2 : FanoutFrame st1 st2 ids2) :
    FanoutFrame st st2 (ids1 ++ ids2) := by
  refine ⟨h2.subs.trans h1.subs, h2.repos.trans h1.repos, h2.deadCh.trans h1.deadCh,
    h2.dead.trans h1.dead, h2.nextId.trans h1.nextId,
    h2.channelKeys.trans h1.channelKeys, h2.replayAll.trans h1.replayAll,
    h2.bufferSize.trans h1.bufferSize, ?_, ?_⟩
  · intro j hj
    rw [List.mem_append] at hj
    push_neg at hj
    exact (h2.heapOut j hj.2).trans (h1.heapOut j hj.1)
  · intro j
    exact (h2.heapShape j).trans (h1.heapShape j)

theorem FanoutFrame.mono {st st2 : Server} {ids1 ids2 : List SubId}
    (h : FanoutFrame st st2 ids1) (hsub : ∀ j, j ∈ ids1 → j ∈ ids2) :
    FanoutFrame st st2 ids2 := by
  refine ⟨h.subs, h.repos, h.deadCh, h.dead, h.nextId, h.channelKeys, h.replayAll,
    h.bufferSize, ?_, h.heapShape⟩
  intro j hj
  exact h.heapOut j (fun hmem => hj (hsub j hmem))

theorem deliverEvent_frame {st st2 : Server} {id : SubId} {ev : Event}
    (h : deliverEvent st id ev = some st2) : FanoutFrame st st2 [id] := by
  unfold deliverEvent at h
  cases hh : st.heap id with
  | none => rw [hh] at h; exact absurd h (by simp)
  | some sub =>
    simp only [hh] at h
    cases hts : sub.out.trySend ev with
    | panicked =>
      simp only [hts] at h
      exact absurd h (by simp)
    | full =>
      simp only [hts] at h
      split at h
      · cases h
        exact ⟨rfl, rfl, rfl, rfl, rfl, rfl, rfl, rfl, fun _ _ => rfl, fun _ => rfl⟩
      · exact absurd h (by simp)
    | sent q =>
      simp only [hts] at h
      cases h
      have hq := trySend_sent hts
      refine ⟨rfl, rfl, rfl, rfl, rfl, rfl, rfl, rfl, ?_, ?_⟩
      · intro j hj
        have : j ≠ id := by simpa using hj
        exact upd_ne _ _ _ this
      · intro j
        by_cases hje : j = id
        · subst hje
          simp [upd, hh, shape, hq.1]
        · simp [upd, hje]

theorem deliverEventList_frame {ev : Event} :
    ∀ (ids : List SubId) (st st2 : Server),
      deliverEventList st ids ev = some st2 → FanoutFrame st st2 ids := by
  intro ids
  induction ids with
  | nil =>
    intro st st2 h
    unfold deliverEventList at h
    cases h
    exact FanoutFrame.refl _ _
  | cons id rest ih =>
    intro st st2 h
    unfold deliverEventList at h
    cases hd : deliverEvent st id ev with
    | none => rw [hd] at h; exact absurd h (by simp)
    | some st1 =>
      rw [hd] at h
      exact (deliverEvent_frame hd).comp (ih st1 st2 h)

theorem runPublish_frame {ev : Event} :
    ∀ (cs : List String) (st st2 : Server),
      runPublish st cs ev = some st2 →
      FanoutFrame st st2 ((cs.map st.subs).flatten) := by
  intro cs
  induction cs with
  | nil =>
    intro st st2 h
    unfold runPublish at h
    cases h
    exact FanoutFrame.refl _ _
  | cons c rest ih =>
    intro st st2 h
    unfold runPublish at h
    cases hd : deliverEventList st (st.subs c) ev with
    | none => rw [hd] at h; exact absurd h (by simp)
    | some st1 =>
      rw [hd] at h
      have f1 := deliverEventList_frame (st.subs c) st st1 hd
      have f2 := ih st1 st2 h
      rw [f1.subs] at f2
      simpa using f1.comp f2

theorem deliverComment_frame {st st2 : Server} {id : SubId} {m : String}
    (h : deliverComment st id m = some st2) : FanoutFrame st st2 [id] := by
  unfold deliverComment at h
  cases hh : st.heap id with
  | none => rw [hh] at h; exact absurd h (by simp)
  | some sub =>
    simp only [hh] at h
    cases hts : sub.cout.trySend m with
    | panicked =>
      simp only [hts] at h
      exact absurd h (by simp)
    | full =>
      simp only [hts] at h
      split at h
      · cases h
        exact ⟨rfl, rfl, rfl, rfl, rfl, rfl, rfl, rfl, fun _ _ => rfl, fun _ => rfl⟩
      · exact absurd h (by simp)
    | sent q =>
      simp only [hts] at h
      cases h
      have hq := trySend_sent hts
      refine ⟨rfl, rfl, rfl, rfl, rfl, rfl, rfl, rfl, ?_, ?_⟩
      · intro j hj
        have : j ≠ id := by simpa using hj
        exact upd_ne _ _ _ this
      · intro j
        by_cases hje : j = id
        · subst hje
          simp [upd, hh, shape, hq.1]
        · simp [upd, hje]

theorem deliverCommentList_frame {m : String} :
    ∀ (ids : List SubId) (st st2 : Server),
      deliverCommentList st ids m = some st2 → FanoutFrame st st2 ids := by
  intro ids
  induction ids with
  | nil =>
    intro st st2 h
    unfold deliverCommentList at h
    cases h
    exact FanoutFrame.refl _ _
  | cons id rest ih =>
    intro st st2 h
    unfold deliverCommentList at h
    cases hd : deliverComment st id m with
    | none => rw [hd] at h; exact absurd h (by simp)
    | some st1 =>
      rw [hd] at h
      exact (deliverComment_frame hd).comp (ih st1 st2 h)

theorem runComment_frame {m : String} :
    ∀ (cs : List String) (st st2 : Server),
      runComment st cs m = some st2 →
      FanoutFrame st st2 ((cs.map st.subs).flatten) := by
  intro cs
  induction cs with
  | nil =>
    intro st st2 h
    unfold runComment at h
    cases h
    exact FanoutFrame.refl _ _
  | cons c rest ih =>
    intro st st2 h
    unfold runComment at h
    cases hd : deliverCommentList st (st.subs c) m with
    | none => rw [hd] at h; exact absurd h (by simp)
    | some st1 =>
      rw [hd] at h
      have f1 := deliverCommentList_frame (st.subs c) st st1 hd
      have f2 := ih st1 st2 h
      rw [f1.subs] at f2
      simpa using f1.comp f2

/-! ### Effect lemmas for the kill (CloseChannel) and quit (Close) cases -/

/-- Effect of a completed destroy-and-remove pass (the kill case) over the
ids `ids` of channel `die`. -/
structure KillFrame (st st2 : Server) (die : String) (ids : List SubId) : Prop where
  heapClosed : ∀ id sub, id ∈ ids → st.heap id = some sub → st2.heap id = some (closeSub sub)
  heapOut : ∀ id, id ∉ ids → st2.heap id = st.heap id
  subsOther : ∀ c, c ≠ die → st2.subs c = st.subs c
  subsSub : (st2.subs die).Sublist (st.subs die)
  removed : ∀ id, id ∈ ids → id ∉ st2.subs die
  repos : st2.repos = st.repos
  deadCh : st2.deadChannels = st.deadChannels
  dead : st2.dead = st.dead
  nextId : st2.nextId = st.nextId
  channelKeys : st2.channelKeys = st.channelKeys
  unregQ : st2.unregQ = st.unregQ
  replayAll : st2.ReplayAll = st.ReplayAll
  bufferSize : st2.BufferSize = st.BufferSize

theorem destroyList_spec (die : String) :
    ∀ (ids : List SubId) (st : Server),
      (∀ id, id ∈ ids → ∃ sub, st.heap id = some sub ∧ sub.out.closed = false ∧
        sub.cout.closed = false) →
      ids.Nodup →
      ∃ st2, destroyList st die ids = some st2 ∧ KillFrame st st2 die ids := by
  intro ids
  induction ids with
  | nil =>
    intro st _ _
    refine ⟨st, rfl, ?_⟩
    exact ⟨fun id sub h => absurd h (List.not_mem_nil id), fun _ _ => rfl, fun _ _ => rfl,
      List.Sublist.refl _, fun id h => absurd h (List.not_mem_nil id),
      rfl, rfl, rfl, rfl, rfl, rfl, rfl, rfl⟩
  | cons id rest ih =>
    intro st hopen hnd
    obtain ⟨sub, hsub, ho, hc⟩ := hopen id (List.mem_cons_self id rest)
    have hnotin : id ∉ rest := (List.nodup_cons.mp hnd).1
    have hndr : rest.Nodup := (List.nodup_cons.mp hnd).2
    set st' : Server :=
      { st with
          heap := upd st.heap id (some (closeSub sub))
          subs := upd st.subs die ((st.subs die).filter (fun j => j != id)) } with hst'
    have hstep : destroyList st die (id :: rest) = destroyList st' die rest := by
      unfold destroyList
      simp only [hsub, destroy_open ho hc]
      cases rest with
      | nil => rfl
      | cons a l => rfl
    have hopen' : ∀ id2, id2 ∈ rest → ∃ sub2, st'.heap id2 = some sub2 ∧
        sub2.out.closed = false ∧ sub2.cout.closed = false := by
      intro id2 hid2
      have hne : id2 ≠ id := fun he => hnotin (he ▸ hid2)
      obtain ⟨sub2, h1, h2, h3⟩ := hopen id2 (List.mem_cons_of_mem id hid2)
      exact ⟨sub2, by rw [hst']; simpa [upd_ne _ _ _ hne] using h1, h2, h3⟩
    obtain ⟨st2, hrun, F⟩ := ih st' hopen' hndr
    refine ⟨st2, by rw [hstep, hrun], ?_⟩
    have hsubsdie : st'.subs die = (st.subs die).filter (fun j => j != id) := by
      rw [hst']
      exact upd_self _ _ _
    refine ⟨?_, ?_, ?_, ?_, ?_, ?_, ?_, ?_, ?_, ?_, ?_, ?_, ?_⟩
    · intro id0 sub0 hmem hheap
      rcases List.mem_cons.mp hmem with he | hr
      · subst he
        have : sub = sub0 := Option.some_injective _ (hsub.symm.trans hheap)
        subst this
        rw [F.heapOut id0 hnotin, hst']
        simp [upd_self]
      · have hne : id0 ≠ id := fun he => hnotin (he ▸ hr)
        have : st'.heap id0 = some sub0 := by
          rw [hst']
          simpa [upd_ne _ _ _ hne] using hheap
        exact F.heapClosed id0 sub0 hr this
    · intro j hj
      have hne : j ≠ id := fun he => hj (he ▸ List.mem_cons_self id rest)
      have hnr : j ∉ rest := fun hr => hj (List.mem_cons_of_mem id hr)
      rw [F.heapOut j hnr, hst']
      simp [upd_ne _ _ _ hne]
    · intro c hcne
      rw [F.subsOther c hcne, hst']
      simp [upd_ne _ _ _ hcne]
    · refine (F.subsSub.trans ?_)
      rw [hsubsdie]
      exact List.filter_sublist _
    · intro id0 hmem hin
      rcases List.mem_cons.mp hmem with he | hr
      · subst he
        have : id0 ∈ st'.subs die := F.subsSub.mem hin
        rw [hsubsdie] at this
        have := List.mem_filter.mp this
        simp at this
      · exact F.removed id0 hr hin
    · rw [F.repos, hst']
    · rw [F.deadCh, hst']
    · rw [F.dead, hst']
    · rw [F.nextId, hst']
    · rw [F.channelKeys, hst']
    · rw [F.unregQ, hst']
    · rw [F.replayAll, hst']
    · rw [F.bufferSize, hst']

/-- Effect of a completed destroy-without-remove pass (the quit case). -/
structure QuitFrame (st st2 : Server) (ids : List SubId) : Prop where
  heapClosed : ∀ id sub, id ∈ ids → st.heap id = some sub → st2.heap id = some (closeSub sub)
  heapOut : ∀ id, id ∉ ids → st2.heap id = st.heap id
  subs : st2.subs = st.subs
  repos : st2.repos = st.repos
  deadCh : st2.deadChannels = st.deadChannels
  dead : st2.dead = st.dead
  nextId : st2.nextId = st.nextId
  channelKeys : st2.channelKeys = st.channelKeys
  unregQ : st2.unregQ = st.unregQ
  replayAll : st2.ReplayAll = st.ReplayAll
  bufferSize : st2.BufferSize = st.BufferSize

theorem destroyOnly_spec :
    ∀ (ids : List SubId) (st : Server),
      (∀ id, id ∈ ids → ∃ sub, st.heap id = some sub ∧ sub.out.closed = false ∧
        sub.cout.closed = false) →
      ids.Nodup →
      ∃ st2, destroyOnly st ids = some st2 ∧ QuitFrame st st2 ids := by
  intro ids
  induction ids with
  | nil =>
    intro st _ _
    exact ⟨st, rfl, ⟨fun id sub h => absurd h (List.not_mem_nil id), fun _ _ => rfl,
      rfl, rfl, rfl, rfl, rfl, rfl, rfl, rfl, rfl⟩⟩
  | cons id rest ih =>
    intro st hopen hnd
    obtain ⟨sub, hsub, ho, hc⟩ := hopen id (List.mem_cons_self id rest)
    have hnotin : id ∉ rest := (List.nodup_cons.mp hnd).1
    have hndr : rest.Nodup := (List.nodup_cons.mp hnd).2
    set st' : Server := { st with heap := upd st.heap id (some (closeSub sub)) } with hst'
    have hstep : destroyOnly st (id :: rest) = destroyOnly st' rest := by
      unfold destroyOnly
      simp only [hsub, destroy_open ho hc]
      cases rest with
      | nil => rfl
      | cons a l => rfl
    have hopen' : ∀ id2, id2 ∈ rest → ∃ sub2, st'.heap id2 = some sub2 ∧
        sub2.out.closed = false ∧ sub2.cout.closed = false := by
      intro id2 hid2
      have hne : id2 ≠ id := fun he => hnotin (he ▸ hid2)
      obtain ⟨sub2, h1, h2, h3⟩ := hopen id2 (List.mem_cons_of_mem id hid2)
      exact ⟨sub2, by rw [hst']; simpa [upd_ne _ _ _ hne] using h1, h2, h3⟩
    obtain ⟨st2, hrun, F⟩ := ih st' hopen' hndr
    refine ⟨st2, by rw [hstep, hrun], ?_⟩
    refine ⟨?_, ?_, ?_, ?_, ?_, ?_, ?_, ?_, ?_, ?_, ?_⟩
    · intro id0 sub0 hmem hheap
      rcases List.mem_cons.mp hmem with he | hr
      · subst he
        have : sub = sub0 := Option.some_injective _ (hsub.symm.trans hheap)
        subst this
        rw [F.heapOut id0 hnotin, hst']
        simp [upd_self]
      · have hne : id0 ≠ id := fun he => hnotin (he ▸ hr)
        have : st'.heap id0 = some sub0 := by
          rw [hst']
          simpa [upd_ne _ _ _ hne] using hheap
        exact F.heapClosed id0 sub0 hr this
    · intro j hj
      have hne : j ≠ id := fun he => hj (he ▸ List.mem_cons_self id rest)
      have hnr : j ∉ rest := fun hr => hj (List.mem_cons_of_mem id hr)
      rw [F.heapOut j hnr, hst']
      simp [upd_ne _ _ _ hne]
    · rw [F.subs, hst']
    · rw [F.repos, hst']
    · rw [F.deadCh, hst']
    · rw [F.dead, hst']
    · rw [F.nextId, hst']
    · rw [F.channelKeys, hst']
    · rw [F.unregQ, hst']
    · rw [F.replayAll, hst']
    · rw [F.bufferSize, hst']

theorem destroyChannels_spec :
    ∀ (cs : List String) (st : Server),
      (∀ c, c ∈ cs → ∀ id, id ∈ st.subs c → ∃ sub, st.heap id = some sub ∧
        sub.channel = c ∧ sub.out.closed = false ∧ sub.cout.closed = false) →
      (∀ c, c ∈ cs → (st.subs c).Nodup) →
      cs.Nodup →
      ∃ st2, destroyChannels st cs = some st2 ∧
        (∀ c, c ∈ cs → ∀ id sub, id ∈ st.subs c → st.heap id = some sub →
          st2.heap id = some (closeSub sub)) ∧
        (∀ id, (∀ c, c ∈ cs → id ∉ st.subs c) → st2.heap id = st.heap id) ∧
        st2.subs = st.subs ∧ st2.repos = st.repos ∧
        st2.deadChannels = st.deadChannels ∧ st2.dead = st.dead ∧
        st2.nextId = st.nextId ∧ st2.channelKeys = st.channelKeys ∧
        st2.unregQ = st.unregQ ∧ st2.ReplayAll = st.ReplayAll ∧
        st2.BufferSize = st.BufferSize := by
  intro cs
  induction cs with
  | nil =>
    intro st _ _ _
    exact ⟨st, rfl, fun c hc => absurd hc (List.not_mem_nil c), fun _ _ => rfl,
      rfl, rfl, rfl, rfl, rfl, rfl, rfl, rfl, rfl⟩
  | cons c rest ih =>
    intro st hwf hnd hcsnd
    have hcnotin : c ∉ rest := (List.nodup_cons.mp hcsnd).1
    have hrestnd : rest.Nodup := (List.nodup_cons.mp hcsnd).2
    have hopen : ∀ id, id ∈ st.subs c → ∃ sub, st.heap id = some sub ∧
        sub.out.closed = false ∧ sub.cout.closed = false := by
      intro id hid
      obtain ⟨sub, h1, _, h3, h4⟩ := hwf c (List.mem_cons_self c rest) id hid
      exact ⟨sub, h1, h3, h4⟩
    obtain ⟨st1, hrun1, F1⟩ := destroyOnly_spec (st.subs c) st hopen
      (hnd c (List.mem_cons_self c rest))
    -- an id of another channel of `rest` never lies in `st.subs c`
    have hdisj : ∀ c2, c2 ∈ rest → ∀ id, id ∈ st.subs c2 → id ∉ st.subs c := by
      intro c2 hc2 id hid hidc
      obtain ⟨sub, h1, h2, _, _⟩ := hwf c2 (List.mem_cons_of_mem c hc2) id hid
      obtain ⟨sub2, g1, g2, _, _⟩ := hwf c (List.mem_cons_self c rest) id hidc
      have : sub = sub2 := Option.some_injective _ (h1.symm.trans g1)
      subst this
      exact hcnotin (by rw [← h2, g2] at hc2; exact hc2)
    have hwf1 : ∀ c2, c2 ∈ rest → ∀ id, id ∈ st1.subs c2 → ∃ sub, st1.heap id = some sub ∧
        sub.channel = c2 ∧ sub.out.closed = false ∧ sub.cout.closed = false := by
      intro c2 hc2 id hid
      rw [F1.subs] at hid
      obtain ⟨sub, h1, h2, h3, h4⟩ := hwf c2 (List.mem_cons_of_mem c hc2) id hid
      refine ⟨sub, ?_, h2, h3, h4⟩
      rw [F1.heapOut id (hdisj c2 hc2 id hid)]
      exact h1
    have hnd1 : ∀ c2, c2 ∈ rest → (st1.subs c2).Nodup := by
      intro c2 hc2
      rw [F1.subs]
      exact hnd c2 (List.mem_cons_of_mem c hc2)
    obtain ⟨st2, hrun2, G1, G2, G3, G4, G5, G6, G7, G8, G9, G10, G11⟩ :=
      ih st1 hwf1 hnd1 hrestnd
    have hstep : destroyChannels st (c :: rest) = some st2 := by
      unfold destroyChannels
      simp only [hrun1]
      exact hrun2
    refine ⟨st2, hstep, ?_, ?_, G3.trans F1.subs, G4.trans F1.repos,
      G5.trans F1.deadCh, G6.trans F1.dead, G7.trans F1.nextId,
      G8.trans F1.channelKeys, G9.trans F1.unregQ, G10.trans F1.replayAll,
      G11.trans F1.bufferSize⟩
    · intro c2 hc2 id sub hid hheap
      rcases List.mem_cons.mp hc2 with he | hr
      · subst he
        have h1 : st1.heap id = some (closeSub sub) := F1.heapClosed id sub hid hheap
        have h2 : ∀ c3, c3 ∈ rest → id ∉ st1.subs c3 := by
          intro c3 hc3 hid3
          rw [F1.subs] at hid3
          exact hdisj c3 hc3 id hid3 hid
        rw [G2 id h2]
        exact h1
      · have hnot : id ∉ st.subs c := hdisj c2 hr id hid
        have h1 : st1.heap id = st.heap id := F1.heapOut id hnot
        have hid1 : id ∈ st1.subs c2 := by rw [F1.subs]; exact hid
        exact G1 c2 hr id sub hid1 (h1.trans hheap)
    · intro id hnone
      have h1 : st1.heap id = st.heap id :=
        F1.heapOut id (hnone c (List.mem_cons_self c rest))
      have h2 : ∀ c2, c2 ∈ rest → id ∉ st1.subs c2 := by
        intro c2 hc2
        rw [F1.subs]
        exact hnone c2 (List.mem_cons_of_mem c hc2)
      rw [G2 id h2]
      exact h1

/-! ### Characterization of the Handler (Subscribe) operation -/

theorem handler_deadHub {st : Server} {c lei : String} (h : st.dead = true) :
    Handler st c lei = (st, .deadHub) := by
  simp [Handler, h]

theorem handler_deadChannel {st : Server} {c lei : String} (h1 : st.dead = false)
    (h2 : st.deadChannels c = true) : Handler st c lei = (st, .deadChannel) := by
  simp [Handler, h1, h2]

/-- The subscription object a live admission allocates. -/
def freshSub (st : Server) (c lei : String) : subscription :=
  { channel := c
    lastEventId := lei
    out := { buf := [], cap := st.BufferSize, closed := false }
    cout := { buf := [], cap := st.BufferSize, closed := false } }

theorem handler_live {st : Server} {c lei : String} (h1 : st.dead = false)
    (h2 : st.deadChannels c = false) :
    Handler st c lei =
      (((runSubs { st with heap := upd st.heap st.nextId (some (freshSub st c lei)),
                           nextId := st.nextId + 1 } st.nextId (freshSub st c lei)).1),
       .live st.nextId
         (if st.ReplayAll = true ∨ lei.length > 0 then (st.repos c).isSome else false)) := by
  simp only [Handler, h1, h2, Bool.false_eq_true, if_false, runSubs, freshSub]

/-! ### The hub invariant and its preservation -/

/-- Structural invariant of the hub state, maintained by every completed
operation: every id in a channel's subscriber set is an allocated
subscription of that very channel whose queues are still open while the hub
lives; subscriber sets have no duplicates; a dead channel's set is empty
(while the hub lives); allocated ids are below the allocation counter; the
recorded key set has no duplicates and covers every non-empty channel. -/
structure Inv (st : Server) : Prop where
  subsWF : ∀ c id, id ∈ st.subs c → ∃ sub, st.heap id = some sub ∧ sub.channel = c ∧
    (st.dead = false → sub.out.closed = false ∧ sub.cout.closed = false)
  subsNodup : ∀ c, (st.subs c).Nodup
  deadEmpty : st.dead = false → ∀ c, st.deadChannels c = true → st.subs c = []
  idBound : ∀ id sub, st.heap id = some sub → id < st.nextId
  keysNodup : st.channelKeys.Nodup
  subsKeys : ∀ c, st.subs c ≠ [] → c ∈ st.channelKeys

theorem inv_mkServer (replayAll : Bool) (bufferSize : Nat) :
    Inv (mkServer replayAll bufferSize) := by
  refine ⟨?_, ?_, ?_, ?_, ?_, ?_⟩
  · intro c id h
    exact absurd h (List.not_mem_nil id)
  · intro c
    exact List.nodup_nil
  · intro _ c h
    exact absurd h (by simp [mkServer])
  · intro id sub h
    exact absurd h (by simp [mkServer])
  · exact List.nodup_nil
  · intro c h
    exact absurd rfl h

/-- Invariance is carried across any fan-out pass. -/
theorem inv_of_fanout {st st2 : Server} {ids : List SubId} (hinv : Inv st)
    (F : FanoutFrame st st2 ids) : Inv st2 := by
  refine ⟨?_, ?_, ?_, ?_, ?_, ?_⟩
  · intro c id hmem
    rw [F.subs] at hmem
    obtain ⟨sub, h1, h2, h3⟩ := hinv.subsWF c id hmem
    have hs := F.heapShape id
    rw [h1] at hs
    cases hh : st2.heap id with
    | none => rw [hh] at hs; exact absurd hs (by simp)
    | some sub2 =>
      rw [hh] at hs
      have : shape sub2 = shape sub := by simpa using hs
      have hch : sub2.channel = sub.channel := congrArg Prod.fst this
      have hoc : sub2.out.closed = sub.out.closed := congrArg (fun p => p.2.1) this
      have hcc : sub2.cout.closed = sub.cout.closed := congrArg (fun p => p.2.2) this
      refine ⟨sub2, rfl, hch.trans h2, ?_⟩
      intro hd
      rw [F.dead] at hd
      obtain ⟨a, b⟩ := h3 hd
      exact ⟨hoc.trans a, hcc.trans b⟩
  · intro c
    rw [F.subs]
    exact hinv.subsNodup c
  · intro hd c hc
    rw [F.subs]
    rw [F.dead] at hd
    rw [F.deadCh] at hc
    exact hinv.deadEmpty hd c hc
  · intro id sub h
    have hs := F.heapShape id
    rw [h] at hs
    cases hh : st.heap id with
    | none => rw [hh] at hs; exact absurd hs (by simp)
    | some sub0 =>
      rw [F.nextId]
      exact hinv.idBound id sub0 hh
  · rw [F.channelKeys]
    exact hinv.keysNodup
  · intro c h
    rw [F.subs] at h
    rw [F.channelKeys]
    exact hinv.subsKeys c h

theorem inv_register {st st2 : Server} {c : String} {r : Repository} (hinv : Inv st)
    (h : Register st c r = some st2) : Inv st2 := by
  unfold Register at h
  split at h
  · exact absurd h (by simp)
  · cases h
    exact ⟨hinv.subsWF, hinv.subsNodup, hinv.deadEmpty, hinv.idBound,
      hinv.keysNodup, hinv.subsKeys⟩

theorem inv_unregisterReq {st st2 : Server} {id : SubId} (hinv : Inv st)
    (h : Unregister st id = some st2) : Inv st2 := by
  unfold Unregister at h
  split at h
  · exact absurd h (by simp)
  · cases h
    exact ⟨hinv.subsWF, hinv.subsNodup, hinv.deadEmpty, hinv.idBound,
      hinv.keysNodup, hinv.subsKeys⟩

theorem inv_publish {st st2 : Server} {cs : List String} {ev : Event} (hinv : Inv st)
    (h : Publish st cs ev = some st2) : Inv st2 := by
  unfold Publish at h
  split at h
  · exact absurd h (by simp)
  · exact inv_of_fanout hinv (runPublish_frame cs st st2 h)

theorem inv_comment {st st2 : Server} {cs : List String} {m : String} (hinv : Inv st)
    (h : PublishComment st cs m = some st2) : Inv st2 := by
  unfold PublishComment at h
  split at h
  · exact absurd h (by simp)
  · exact inv_of_fanout hinv (runComment_frame cs st st2 h)

theorem inv_runUnregister {st st2 : Server} {id : SubId} (hinv : Inv st)
    (h : runUnregister st id = some st2) : Inv st2 := by
  unfold runUnregister at h
  cases hh : st.heap id with
  | none => rw [hh] at h; exact absurd h (by simp)
  | some sub =>
    simp only [hh] at h
    cases hd : sub.destroy with
    | none =>
      simp only [hd] at h
      exact absurd h (by simp)
    | some sub2 =>
      simp only [hd] at h
      cases h
      obtain ⟨hcs, _, _⟩ := destroy_some_shape hd
      subst hcs
      refine ⟨?_, ?_, ?_, ?_, ?_, ?_⟩
      · intro c id0 hmem
        dsimp only at hmem ⊢
        by_cases hce : c = sub.channel
        · subst hce
          rw [upd_self] at hmem
          obtain ⟨hm, hne⟩ : id0 ∈ st.subs sub.channel ∧ id0 ≠ id := by
            have := List.mem_filter.mp hmem
            exact ⟨this.1, by simpa using this.2⟩
          obtain ⟨sub0, h1, h2, h3⟩ := hinv.subsWF sub.channel id0 hm
          exact ⟨sub0, by rw [upd_ne _ _ _ hne]; exact h1, h2, h3⟩
        · rw [upd_ne _ _ _ hce] at hmem
          obtain ⟨sub0, h1, h2, h3⟩ := hinv.subsWF c id0 hmem
          have hne : id0 ≠ id := by
            intro he
            subst he
            have : sub0 = sub := Option.some_injective _ (h1.symm.trans hh)
            subst this
            exact hce h2.symm
          exact ⟨sub0, by rw [upd_ne _ _ _ hne]; exact h1, h2, h3⟩
      · intro c
        dsimp only
        by_cases hce : c = sub.channel
        · subst hce
          rw [upd_self]
          exact (hinv.subsNodup sub.channel).filter _
        · rw [upd_ne _ _ _ hce]
          exact hinv.subsNodup c
      · intro hdead c hc
        dsimp only at hdead hc ⊢
        have hold := hinv.deadEmpty hdead c hc
        by_cases hce : c = sub.channel
        · rw [hce] at hold
          rw [hce, upd_self, hold]
          rfl
        · rw [upd_ne _ _ _ hce]
          exact hold
      · intro id0 sub0 h0
        dsimp only at h0 ⊢
        by_cases hne : id0 = id
        · subst hne
          exact hinv.idBound id0 sub hh
        · rw [upd_ne _ _ _ hne] at h0
          exact hinv.idBound id0 sub0 h0
      · exact hinv.keysNodup
      · intro c hc
        dsimp only at hc ⊢
        apply hinv.subsKeys c
        by_cases hce : c = sub.channel
        · rw [hce, upd_self] at hc
          intro he
          rw [hce] at he
          rw [he] at hc
          exact hc rfl
        · rw [upd_ne _ _ _ hce] at hc
          exact hc

theorem inv_unregisterRun {st st2 : Server} (hinv : Inv st)
    (h : runUnregisterStep st = some st2) : Inv st2 := by
  unfold runUnregisterStep at h
  split at h
  · exact absurd h (by simp)
  · cases hq : st.unregQ with
    | nil => rw [hq] at h; exact absurd h (by simp)
    | cons id rest =>
      rw [hq] at h
      simp only at h
      have hinv2 : Inv { st with unregQ := rest } :=
        ⟨hinv.subsWF, hinv.subsNodup, hinv.deadEmpty, hinv.idBound,
          hinv.keysNodup, hinv.subsKeys⟩
      exact inv_runUnregister hinv2 h

theorem inv_handler_live {st : Server} {c lei : String} (hinv : Inv st)
    (hd : st.dead = false) (hch : st.deadChannels c = false) :
    Inv ((runSubs { st with heap := upd st.heap st.nextId (some (freshSub st c lei)),
                            nextId := st.nextId + 1 } st.nextId (freshSub st c lei)).1) := by
  have hfresh : st.heap st.nextId = none := by
    cases hh : st.heap st.nextId with
    | none => rfl
    | some sub => exact absurd (hinv.idBound st.nextId sub hh) (lt_irrefl _)
  have hnotmem : ∀ c2, st.nextId ∉ st.subs c2 := by
    intro c2 hmem
    obtain ⟨sub, h1, _, _⟩ := hinv.subsWF c2 st.nextId hmem
    rw [hfresh] at h1
    exact absurd h1 (by simp)
  have hcontain : (st.subs c).contains st.nextId = false := by
    simpa using hnotmem c
  simp only [runSubs, freshSub, hcontain, Bool.false_eq_true, if_false]
  refine ⟨?_, ?_, ?_, ?_, ?_, ?_⟩
  · intro c2 id0 hmem
    dsimp only at hmem ⊢
    by_cases hce : c2 = c
    · subst hce
      simp only [upd_self] at hmem
      rcases List.mem_append.mp hmem with hold | hnew
      · obtain ⟨sub0, h1, h2, h3⟩ := hinv.subsWF c2 id0 hold
        have hne : id0 ≠ st.nextId := fun he => hnotmem c2 (he ▸ hold)
        refine ⟨sub0, ?_, h2, fun _ => h3 hd⟩
        simpa [upd_ne _ _ _ hne] using h1
      · have he : id0 = st.nextId := by simpa using hnew
        subst he
        refine ⟨freshSub st c2 lei, by simp [upd_self, freshSub], rfl, ?_⟩
        intro _
        exact ⟨rfl, rfl⟩
    · rw [upd_ne _ _ _ hce] at hmem
      obtain ⟨sub0, h1, h2, h3⟩ := hinv.subsWF c2 id0 hmem
      have hne : id0 ≠ st.nextId := fun he => hnotmem c2 (he ▸ hmem)
      refine ⟨sub0, ?_, h2, fun _ => h3 hd⟩
      simpa [upd_ne _ _ _ hne] using h1
  · intro c2
    dsimp only
    by_cases hce : c2 = c
    · subst hce
      rw [upd_self]
      simp [List.nodup_append, hinv.subsNodup c2, hnotmem c2]
    · rw [upd_ne _ _ _ hce]
      exact hinv.subsNodup c2
  · intro _ c2 hc2
    dsimp only at hc2 ⊢
    by_cases hce : c2 = c
    · subst hce
      exact absurd hc2 (by simp [hch])
    · rw [upd_ne _ _ _ hce]
      exact hinv.deadEmpty hd c2 hc2
  · intro id0 sub0 h0
    dsimp only at h0 ⊢
    by_cases hne : id0 = st.nextId
    · subst hne
      exact Nat.lt_succ_self _
    · rw [upd_ne _ _ _ hne] at h0
      exact Nat.lt_succ_of_lt (hinv.idBound id0 sub0 h0)
  · dsimp only
    by_cases hk : c ∈ st.channelKeys
    · simpa [hk] using hinv.keysNodup
    · simp [hk, List.nodup_cons, hinv.keysNodup]
  · intro c2 hc2
    dsimp only at hc2 ⊢
    by_cases hce : c2 = c
    · by_cases hk : c ∈ st.channelKeys
      · simp [hce, hk]
      · simp [hce, hk]
    · rw [upd_ne _ _ _ hce] at hc2
      have hmem := hinv.subsKeys c2 hc2
      by_cases hk : c ∈ st.channelKeys
      · simpa [hk] using hmem
      · simpa [hk] using List.mem_cons_of_mem c hmem

theorem inv_handler {st st2 : Server} {c lei : String} {o : SubscribeOutcome}
    (hinv : Inv st) (h : Handler st c lei = (st2, o)) : Inv st2 := by
  by_cases hd : st.dead = true
  · rw [handler_deadHub hd] at h
    have : st = st2 := congrArg Prod.fst h
    exact this ▸ hinv
  · have hd' : st.dead = false := by simpa using hd
    by_cases hch : st.deadChannels c = true
    · rw [handler_deadChannel hd' hch] at h
      have : st = st2 := congrArg Prod.fst h
      exact this ▸ hinv
    · have hch' : st.deadChannels c = false := by simpa using hch
      rw [handler_live hd' hch'] at h
      have : _ = st2 := congrArg Prod.fst h
      exact this ▸ inv_handler_live hinv hd' hch'

theorem inv_closeChannel {st st2 : Server} {die : String} (hinv : Inv st)
    (h : CloseChannel st die = some st2) : Inv st2 := by
  unfold CloseChannel at h
  split at h
  · exact absurd h (by simp)
  · rename_i hdead
    have hd : st.dead = false := by simpa using hdead
    unfold runKill at h
    obtain ⟨st1, hrun, F⟩ := destroyList_spec die (st.subs die) st
      (by
        intro id hid
        obtain ⟨sub, h1, _, h3⟩ := hinv.subsWF die id hid
        exact ⟨sub, h1, (h3 hd).1, (h3 hd).2⟩)
      (hinv.subsNodup die)
    rw [hrun] at h
    simp only at h
    cases h
    have hdieEmpty : st1.subs die = [] := by
      apply List.eq_nil_iff_forall_not_mem.mpr
      intro id hid
      exact F.removed id (F.subsSub.mem hid) hid
    refine ⟨?_, ?_, ?_, ?_, ?_, ?_⟩
    · intro c id0 hmem
      dsimp only at hmem ⊢
      by_cases hce : c = die
      · subst hce
        rw [hdieEmpty] at hmem
        exact absurd hmem (List.not_mem_nil id0)
      · rw [F.subsOther c hce] at hmem
        obtain ⟨sub0, h1, h2, h3⟩ := hinv.subsWF c id0 hmem
        have hnot : id0 ∉ st.subs die := by
          intro hmem2
          obtain ⟨sub1, g1, g2, _⟩ := hinv.subsWF die id0 hmem2
          have hss : sub0 = sub1 := Option.some_injective _ (h1.symm.trans g1)
          subst hss
          exact hce (h2.symm.trans g2)
        refine ⟨sub0, ?_, h2, ?_⟩
        · rw [F.heapOut id0 hnot]
          exact h1
        · intro _
          exact h3 hd
    · intro c
      dsimp only
      by_cases hce : c = die
      · subst hce
        simp [hdieEmpty]
      · simpa [F.subsOther c hce] using hinv.subsNodup c
    · intro _ c hc
      dsimp only at hc ⊢
      by_cases hce : c = die
      · subst hce
        exact hdieEmpty
      · simp only [upd_ne _ _ _ hce] at hc
        rw [F.deadCh] at hc
        rw [F.subsOther c hce]
        exact hinv.deadEmpty hd c hc
    · intro id0 sub0 h0
      dsimp only at h0 ⊢
      rw [F.nextId]
      by_cases hmem : id0 ∈ st.subs die
      · obtain ⟨sub, g1, _, _⟩ := hinv.subsWF die id0 hmem
        exact hinv.idBound id0 sub g1
      · rw [F.heapOut id0 hmem] at h0
        exact hinv.idBound id0 sub0 h0
    · simpa [F.channelKeys] using hinv.keysNodup
    · intro c hc
      dsimp only at hc ⊢
      rw [F.channelKeys]
      by_cases hce : c = die
      · subst hce
        exact absurd hdieEmpty hc
      · rw [F.subsOther c hce] at hc
        exact hinv.subsKeys c hc

theorem inv_close {st st2 : Server} (hinv : Inv st) (h : Close st = some st2) :
    Inv st2 := by
  unfold Close at h
  split at h
  · exact absurd h (by simp)
  · rename_i hdead
    have hd : st.dead = false := by simpa using hdead
    unfold runQuit at h
    obtain ⟨st1, hrun, G1, G2, G3, G4, G5, G6, G7, G8, G9, G10, G11⟩ :=
      destroyChannels_spec st.channelKeys st
        (by
          intro c _ id hid
          obtain ⟨sub, h1, h2, h3⟩ := hinv.subsWF c id hid
          exact ⟨sub, h1, h2, (h3 hd).1, (h3 hd).2⟩)
        (fun c _ => hinv.subsNodup c)
        hinv.keysNodup
    rw [hrun] at h
    simp only at h
    cases h
    refine ⟨?_, ?_, ?_, ?_, ?_, ?_⟩
    · intro c id0 hmem
      simp only [G3] at hmem
      obtain ⟨sub0, h1, h2, _⟩ := hinv.subsWF c id0 hmem
      have hkey : c ∈ st.channelKeys :=
        hinv.subsKeys c (fun he => absurd (he ▸ hmem) (List.not_mem_nil id0))
      refine ⟨closeSub sub0, ?_, h2, ?_⟩
      · simpa using G1 c hkey id0 sub0 hmem h1
      · intro hfalse
        simp at hfalse
    · intro c
      simpa [G3] using hinv.subsNodup c
    · intro hfalse
      simp at hfalse
    · intro id0 sub0 h0
      simp only at h0
      rw [G7]
      by_cases hmem : ∃ c, c ∈ st.channelKeys ∧ id0 ∈ st.subs c
      · obtain ⟨c, _, hmemc⟩ := hmem
        obtain ⟨sub, g1, _, _⟩ := hinv.subsWF c id0 hmemc
        exact hinv.idBound id0 sub g1
      · push_neg at hmem
        rw [G2 id0 hmem] at h0
        exact hinv.idBound id0 sub0 h0
    · simpa [G8] using hinv.keysNodup
    · intro c hc
      simp only [G3] at hc
      rw [G8]
      exact hinv.subsKeys c hc

/-- Every reachable hub state satisfies the structural invariant. -/
theorem reachable_inv {st : Server} (h : Reachable st) : Inv st := by
  induction h with
  | init a b => exact inv_mkServer a b
  | register _ heq ih => exact inv_register ih heq
  | handler _ heq ih => exact inv_handler ih heq
  | unregisterReq _ heq ih => exact inv_unregisterReq ih heq
  | unregisterRun _ heq ih => exact inv_unregisterRun ih heq
  | publish _ heq ih => exact inv_publish ih heq
  | comment _ heq ih => exact inv_comment ih heq
  | closeChannel _ heq ih => exact inv_closeChannel ih heq
  | close _ heq ih => exact inv_close ih heq

/-! ### Claim theorems -/

/-- Concrete events used to exercise the model. -/
def evA : Event := { id := "1", event := "tick", data := "A" }

def evB : Event := { id := "2", event := "tick", data := "B" }

/-- C9: a newly constructed hub has BufferSize 128 by default, and every
subscription admitted by Subscribe gets an event queue and a comment queue
whose capacity is exactly the hub's BufferSize at admission time. -/
theorem C9_bufferSize :
    NewServer.BufferSize = 128 ∧
    ∀ (st : Server) (c lei : String) (st2 : Server) (id : SubId) (spawned : Bool),
      Handler st c lei = (st2, .live id spawned) →
      ∃ sub, st2.heap id = some sub ∧
        sub.out.cap = st.BufferSize ∧ sub.cout.cap = st.BufferSize ∧
        sub.out.buf = [] ∧ sub.cout.buf = [] := by
  refine ⟨rfl, ?_⟩
  intro st c lei st2 id spawned h
  by_cases hd : st.dead = true
  · rw [handler_deadHub hd] at h
    have := congrArg Prod.snd h
    exact absurd this (by simp)
  · have hd2 : st.dead = false := by simpa using hd
    by_cases hch : st.deadChannels c = true
    · rw [handler_deadChannel hd2 hch] at h
      have := congrArg Prod.snd h
      exact absurd this (by simp)
    · have hch2 : st.deadChannels c = false := by simpa using hch
      rw [handler_live hd2 hch2] at h
      have h2 := congrArg Prod.snd h
      simp only at h2
      injection h2 with hid hsp
      subst hid
      have h1 := congrArg Prod.fst h
      simp only at h1
      rw [← h1]
      refine ⟨freshSub st c lei, ?_, rfl, rfl, rfl, rfl⟩
      simp [runSubs, upd_self]

/-- C9 witness: admitting a subscription on a fresh default hub yields
queues of capacity 128 = NewServer.BufferSize. -/
theorem C9_bufferSize_witness :
    ∃ sub, ((Handler NewServer "t" "").1).heap 0 = some sub ∧
      sub.out.cap = NewServer.BufferSize ∧ sub.cout.cap = NewServer.BufferSize ∧
      sub.out.buf = [] ∧ sub.cout.buf = [] :=
  C9_bufferSize.2 NewServer "t" "" (Handler NewServer "t" "").1 0 false rfl

/-- C7: on Subscribe (to a live channel of a live hub) the subscription is
admitted live, and a replay task is spawned if and only if (ReplayAll is
enabled or the supplied lastEventId is non-empty) and a repository is
registered for the channel; with no repository the subscription is still
admitted live with no replay. -/
theorem C7_replaySpawn (st : Server) (c lei : String)
    (hd : st.dead = false) (hch : st.deadChannels c = false) :
    ∃ st2 spawned, Handler st c lei = (st2, .live st.nextId spawned) ∧
      (spawned = true ↔
        ((st.ReplayAll = true ∨ lei.length > 0) ∧ (st.repos c).isSome = true)) ∧
      st.nextId ∈ st2.subs c := by
  rw [handler_live hd hch]
  refine ⟨_, _, rfl, ?_, ?_⟩
  · by_cases hcond : st.ReplayAll = true ∨ lei.length > 0
    · simp [hcond]
    · simp [hcond]
  · simp only [runSubs, freshSub]
    rw [upd_self]
    by_cases hcontain : (st.subs c).contains st.nextId = true
    · simp only [hcontain, if_true]
      simpa using hcontain
    · simp only [hcontain, Bool.false_eq_true, if_false]
      exact List.mem_append.mpr (Or.inr (List.mem_singleton.mpr rfl))

/-- C7 witness: on a fresh hub with no repository, Subscribe with an empty
lastEventId admits the subscription live and spawns no replay. -/
theorem C7_replaySpawn_witness :
    ∃ st2 spawned, Handler NewServer "t" "" = (st2, .live NewServer.nextId spawned) ∧
      (spawned = true ↔
        ((NewServer.ReplayAll = true ∨ "".length > 0) ∧
          (NewServer.repos "t").isSome = true)) ∧
      NewServer.nextId ∈ st2.subs "t" :=
  C7_replaySpawn NewServer "t" "" rfl rfl

/-- C4: once a channel's dead marker is set (and the hub itself is live),
Subscribe on that channel yields the dead-channel outcome with no state
change — never a live handle — and a Publish or PublishComment naming that
channel is a silent no-op. -/
theorem C4_deadChannel {st : Server} (hre : Reachable st) (c : String)
    (hmark : st.deadChannels c = true) (hlive : st.dead = false)
    (lei : String) (ev : Event) (m : String) :
    Handler st c lei = (st, .deadChannel) ∧
    Publish st [c] ev = some st ∧
    PublishComment st [c] m = some st := by
  have hempty := (reachable_inv hre).deadEmpty hlive c hmark
  refine ⟨handler_deadChannel hlive hmark, ?_, ?_⟩
  · simp only [Publish, hlive, Bool.false_eq_true, if_false]
    simp [runPublish, hempty, deliverEventList]
  · simp only [PublishComment, hlive, Bool.false_eq_true, if_false]
    simp [runComment, hempty, deliverCommentList]

/-- The hub after admitting one subscription on "a" and then closing
channel "a". -/
def stC4 : Server :=
  (CloseChannel (Handler NewServer "a" "").1 "a").getD NewServer

theorem stC4_reachable : Reachable stC4 :=
  Reachable.closeChannel
    (Reachable.handler (Reachable.init false 128)
      (rfl : Handler NewServer "a" "" =
        ((Handler NewServer "a" "").1, (Handler NewServer "a" "").2)))
    (rfl : CloseChannel (Handler NewServer "a" "").1 "a" = some stC4)

/-- C4 witness: on the concrete hub whose channel "a" was closed, Subscribe
yields the dead-channel outcome and publishes to "a" are no-ops. -/
theorem C4_deadChannel_witness :
    Handler stC4 "a" "" = (stC4, .deadChannel) ∧
    Publish stC4 ["a"] evA = some stC4 ∧
    PublishComment stC4 ["a"] "keepalive" = some stC4 :=
  C4_deadChannel stC4_reachable "a" rfl rfl "" evA "keepalive"

/-- C6: CloseChannel(c) completes without fault, destroys every live
subscription currently on channel c (both queues closed), leaves the
channel's subscriber set empty, marks the channel dead, and a subsequent
Subscribe on c yields the dead-channel outcome, never a live handle. -/
theorem C6_closeChannel {st : Server} (hre : Reachable st) (die lei : String)
    (hlive : st.dead = false) :
    ∃ st2, CloseChannel st die = some st2 ∧
      st2.dead = false ∧
      st2.deadChannels die = true ∧
      st2.subs die = [] ∧
      (∀ id, id ∈ st.subs die → ∃ sub, st.heap id = some sub ∧
        st2.heap id = some (closeSub sub)) ∧
      Handler st2 die lei = (st2, .deadChannel) := by
  have hinv := reachable_inv hre
  obtain ⟨st1, hrun, F⟩ := destroyList_spec die (st.subs die) st
    (by
      intro id hid
      obtain ⟨sub, h1, _, h3⟩ := hinv.subsWF die id hid
      exact ⟨sub, h1, (h3 hlive).1, (h3 hlive).2⟩)
    (hinv.subsNodup die)
  have hdieEmpty : st1.subs die = [] := by
    apply List.eq_nil_iff_forall_not_mem.mpr
    intro id hid
    exact F.removed id (F.subsSub.mem hid) hid
  refine ⟨{ st1 with deadChannels := upd st1.deadChannels die true }, ?_, ?_, ?_, ?_, ?_, ?_⟩
  · simp only [CloseChannel, hlive, Bool.false_eq_true, if_false]
    unfold runKill
    rw [hrun]
  · show st1.dead = false
    rw [F.dead]
    exact hlive
  · show upd st1.deadChannels die true die = true
    exact upd_self _ _ _
  · show st1.subs die = []
    exact hdieEmpty
  · intro id hid
    obtain ⟨sub, h1, _, _⟩ := hinv.subsWF die id hid
    exact ⟨sub, h1, F.heapClosed id sub hid h1⟩
  · exact handler_deadChannel (show st1.dead = false by rw [F.dead]; exact hlive)
      (show upd st1.deadChannels die true die = true from upd_self _ _ _)

/-- The hub after admitting one subscription on "x". -/
def stC6 : Server := (Handler NewServer "x" "").1

theorem stC6_reachable : Reachable stC6 :=
  Reachable.handler (Reachable.init false 128)
    (rfl : Handler NewServer "x" "" = (stC6, (Handler NewServer "x" "").2))

/-- C6 witness: closing channel "x" of the concrete hub with one live
subscriber destroys it, empties and marks the channel, and later
subscriptions observe the dead-channel outcome. -/
theorem C6_closeChannel_witness :
    ∃ st2, CloseChannel stC6 "x" = some st2 ∧
      st2.dead = false ∧
      st2.deadChannels "x" = true ∧
      st2.subs "x" = [] ∧
      (∀ id, id ∈ stC6.subs "x" → ∃ sub, stC6.heap id = some sub ∧
        st2.heap id = some (closeSub sub)) ∧
      Handler st2 "x" "" = (st2, .deadChannel) :=
  C6_closeChannel stC6_reachable "x" "" rfl

/-- C8: channel isolation — a completed Publish to a list of channels not
naming b changes neither the subscriber set of b nor the heap entry (the
queues) of any subscriber of b. -/
theorem C8_isolation {st st2 : Server} (hre : Reachable st) {cs : List String}
    {ev : Event} (h : Publish st cs ev = some st2) (b : String) (hb : b ∉ cs)
    (id : SubId) (hid : id ∈ st.subs b) :
    st2.heap id = st.heap id ∧ st2.subs b = st.subs b := by
  have hinv := reachable_inv hre
  unfold Publish at h
  split at h
  · exact absurd h (by simp)
  · have F := runPublish_frame cs st st2 h
    constructor
    · apply F.heapOut
      intro hmem
      rw [List.mem_flatten] at hmem
      obtain ⟨l, hl, hidl⟩ := hmem
      rw [List.mem_map] at hl
      obtain ⟨c, hc, hlc⟩ := hl
      rw [← hlc] at hidl
      obtain ⟨sub, h1, h2, _⟩ := hinv.subsWF c id hidl
      obtain ⟨sub2, g1, g2, _⟩ := hinv.subsWF b id hid
      have hss : sub = sub2 := Option.some_injective _ (h1.symm.trans g1)
      subst hss
      rw [h2] at g2
      rw [g2] at hc
      exact hb hc
    · rw [F.subs]

/-- The hub after admitting subscription 0 on "a" and subscription 1 on "b". -/
def stC8 : Server := (Handler (Handler NewServer "a" "").1 "b" "").1

theorem stC8_reachable : Reachable stC8 :=
  Reachable.handler
    (Reachable.handler (Reachable.init false 128)
      (rfl : Handler NewServer "a" "" =
        ((Handler NewServer "a" "").1, (Handler NewServer "a" "").2)))
    (rfl : Handler (Handler NewServer "a" "").1 "b" "" =
      (stC8, (Handler (Handler NewServer "a" "").1 "b" "").2))

/-- The hub stC8 after a publish naming only channel "a". -/
def stC8b : Server := (Publish stC8 ["a"] evA).getD NewServer

/-- C8 witness: publishing only to "a" leaves the subscriber of "b" and the
set of "b" untouched. -/
theorem C8_isolation_witness :
    stC8b.heap 1 = stC8.heap 1 ∧ stC8b.subs "b" = stC8.subs "b" :=
  C8_isolation stC8_reachable (rfl : Publish stC8 ["a"] evA = some stC8b) "b"
    (by decide) 1 (by decide)

/-- C10: processing a single Unregister for a not-yet-destroyed subscription
whose channel has no subscriber set entry does not fault: it closes both of
the subscription's queues and leaves every channel's subscriber set, every
repository binding, every dead marker and the hub's liveness unchanged
(the delete on the missing inner map is a no-op). -/
theorem C10_unregisterNoSet (st : Server) (id : SubId) (sub : subscription)
    (hheap : st.heap id = some sub) (ho : sub.out.closed = false)
    (hc : sub.cout.closed = false) (hset : st.subs sub.channel = []) :
    ∃ st2, runUnregister st id = some st2 ∧
      st2.heap id = some (closeSub sub) ∧
      (∀ j, j ≠ id → st2.heap j = st.heap j) ∧
      st2.subs = st.subs ∧
      st2.repos = st.repos ∧ st2.deadChannels = st.deadChannels ∧
      st2.dead = st.dead ∧ st2.unregQ = st.unregQ := by
  unfold runUnregister
  simp only [hheap, destroy_open ho hc]
  refine ⟨_, rfl, ?_, ?_, ?_, rfl, rfl, rfl, rfl⟩
  · dsimp only
    exact upd_self _ _ _
  · intro j hj
    dsimp only
    exact upd_ne _ _ _ hj
  · dsimp only
    funext x
    by_cases hx : x = sub.channel
    · subst hx
      rw [upd_self, hset]
      rfl
    · exact upd_ne _ _ _ hx

/-- A live subscription allocated on channel "ghost" which has no entry in
the subscriber-set map. -/
def subC10 : subscription := freshSub NewServer "ghost" ""

/-- A hub whose heap holds subC10 although no subscriber set contains it. -/
def stC10 : Server :=
  { NewServer with heap := upd NewServer.heap 0 (some subC10), nextId := 1 }

/-- C10 witness: unregistering the orphan subscription succeeds and only
closes its queues. -/
theorem C10_unregisterNoSet_witness :
    ∃ st2, runUnregister stC10 0 = some st2 ∧
      st2.heap 0 = some (closeSub subC10) ∧
      (∀ j, j ≠ 0 → st2.heap j = stC10.heap j) ∧
      st2.subs = stC10.subs ∧
      st2.repos = stC10.repos ∧ st2.deadChannels = stC10.deadChannels ∧
      st2.dead = stC10.dead ∧ st2.unregQ = stC10.unregQ :=
  C10_unregisterNoSet stC10 0 subC10 rfl rfl rfl rfl

/-- A hub with BufferSize 1 (`srv.BufferSize = 1` after NewServer). -/
def stC1a : Server := mkServer false 1

/-- stC1a after admitting three subscriptions on channel "t". -/
def stC1d : Server :=
  (Handler (Handler (Handler stC1a "t" "").1 "t" "").1 "t" "").1

/-- stC1d after one publish to "t", which fills all three capacity-1 queues. -/
def stC1e : Server := (Publish stC1d ["t"] evA).getD NewServer

/-- C1 (failing part): with three subscribers of "t" whose queues are all
full and an empty unregister buffer, a publish to "t" queues unregister
triggers for the first two slow subscribers, but the third send on the
capacity-2 unregister channel finds the buffer full and blocks the actor —
which is the only receiver of that channel — forever.  The publish thus
blocks the actor (a permanent deadlock, `none`), contradicting the claim
that a publish to full queues never blocks. -/
theorem C1_publishBlocksActor :
    Publish stC1d ["t"] evA = some stC1e ∧
    stC1e.unregQ = [] ∧
    Publish stC1e ["t"] evB = none :=
  ⟨rfl, rfl, rfl⟩

/-- The hub after admitting subscription 0 on "t" and then receiving two
Unregister requests for it — the connection handler and the publish
backpressure path may each request unregistration of the same
subscription. -/
def stC2b : Server :=
  (Unregister ((Unregister (Handler NewServer "t" "").1 0).getD NewServer) 0).getD
    NewServer

/-- stC2b after the actor processes the first Unregister request. -/
def stC2c : Server := (runUnregisterStep stC2b).getD NewServer

/-- C2 (failing part): both Unregister requests are queued; processing the
first destroys the subscription (both queues closed), but processing the
second calls destroy again, which closes an already-closed queue — a
runtime panic (`none`) — contradicting the claim that a second Unregister
is a safe no-op. -/
theorem C2_doubleUnregisterPanics :
    stC2b.unregQ = [0, 0] ∧
    runUnregisterStep stC2b = some stC2c ∧
    (∃ sub, stC2c.heap 0 = some sub ∧ sub.out.closed = true ∧
      sub.cout.closed = true) ∧
    runUnregisterStep stC2c = none :=
  ⟨rfl, rfl, ⟨closeSub (freshSub NewServer "t" ""), rfl, rfl, rfl⟩, rfl⟩

/-- A subscription on "news" resuming from id "5" that has already been
destroyed (both queues closed). -/
def subC5 : subscription :=
  ((freshSub NewServer "news" "5").destroy).getD (freshSub NewServer "news" "5")

/-- C5 (failing part): a replay task forwarding the repository's events into
a subscription destroyed mid-iteration does not stop silently — its send
`sub.out <- ev` targets a closed channel and panics (`none`), contradicting
the claim that destruction is tolerated as an immediate silent stop. -/
theorem C5_replayPanics :
    subC5.out.closed = true ∧ subC5.cout.closed = true ∧
    replay (fun _ _ => [evA, evB]) subC5 = none :=
  ⟨rfl, rfl, rfl⟩

/-- The hub right after `Close` on a fresh server. -/
def stC3 : Server := (Close NewServer).getD NewServer

/-- C3 counterexample: after Close the hub is dead, but a subsequent
Publish (or CloseChannel, or a second Close) is not a no-op — the send on
the corresponding closed operation channel panics (`none`), refuting the
claim that every subsequent operation on the hub is a no-op with no effect
and no fault. -/
theorem C3_postCloseNotNoop :
    Close NewServer = some stC3 ∧ stC3.dead = true ∧
    Publish stC3 ["a"] evA = none ∧
    PublishComment stC3 ["a"] "keepalive" = none ∧
    CloseChannel stC3 "a" = none ∧
    Close stC3 = none :=
  ⟨rfl, rfl, rfl, rfl, rfl, rfl⟩

/-- C3 (amended): Close on a live hub completes, destroys every
subscription of every channel, and marks the hub permanently dead; a
subsequent Subscribe observes the dead-hub outcome with no state change,
while every other subsequent operation (Register, Publish, PublishComment,
CloseChannel, Unregister, Close, and the actor's unregister draining)
faults instead of being a no-op; no operation can clear the dead flag. -/
theorem C3_shutdown {st : Server} (hre : Reachable st) (hlive : st.dead = false) :
    ∃ st2, Close st = some st2 ∧ st2.dead = true ∧
      (∀ c id, id ∈ st.subs c → ∃ sub, st.heap id = some sub ∧
        st2.heap id = some (closeSub sub)) ∧
      (∀ c lei, Handler st2 c lei = (st2, .deadHub)) ∧
      (∀ cs ev, Publish st2 cs ev = none) ∧
      (∀ cs m, PublishComment st2 cs m = none) ∧
      (∀ c r, Register st2 c r = none) ∧
      (∀ c, CloseChannel st2 c = none) ∧
      (∀ id, Unregister st2 id = none) ∧
      Close st2 = none ∧
      runUnregisterStep st2 = none := by
  have hinv := reachable_inv hre
  obtain ⟨st1, hrun, G1, G2, G3, G4, G5, G6, G7, G8, G9, G10, G11⟩ :=
    destroyChannels_spec st.channelKeys st
      (by
        intro c _ id hid
        obtain ⟨sub, h1, h2, h3⟩ := hinv.subsWF c id hid
        exact ⟨sub, h1, h2, (h3 hlive).1, (h3 hlive).2⟩)
      (fun c _ => hinv.subsNodup c)
      hinv.keysNodup
  refine ⟨{ st1 with dead := true }, ?_, rfl, ?_, ?_, ?_, ?_, ?_, ?_, ?_, ?_, ?_⟩
  · simp only [Close, hlive, Bool.false_eq_true, if_false]
    unfold runQuit
    rw [hrun]
  · intro c id hid
    obtain ⟨sub, h1, _, _⟩ := hinv.subsWF c id hid
    have hkey : c ∈ st.channelKeys :=
      hinv.subsKeys c (fun he => absurd (he ▸ hid) (List.not_mem_nil id))
    refine ⟨sub, h1, ?_⟩
    show st1.heap id = some (closeSub sub)
    exact G1 c hkey id sub hid h1
  · intro c lei
    exact handler_deadHub rfl
  · intro cs ev
    simp [Publish]
  · intro cs m
    simp [PublishComment]
  · intro c r
    simp [Register]
  · intro c
    simp [CloseChannel]
  · intro id
    simp [Unregister]
  · simp [Close]
  · simp [runUnregisterStep]

/-- The hub after admitting one subscription on "t". -/
def stC3w : Server := (Handler NewServer "t" "").1

theorem stC3w_reachable : Reachable stC3w :=
  Reachable.handler (Reachable.init false 128)
    (rfl : Handler NewServer "t" "" = (stC3w, (Handler NewServer "t" "").2))

/-- C3 witness: shutting down the concrete hub with one live subscription
destroys it, marks the hub dead, and every later operation either reports
the dead hub (Subscribe) or faults. -/
theorem C3_shutdown_witness :
    ∃ st2, Close stC3w = some st2 ∧ st2.dead = true ∧
      (∀ c id, id ∈ stC3w.subs c → ∃ sub, stC3w.heap id = some sub ∧
        st2.heap id = some (closeSub sub)) ∧
      (∀ c lei, Handler st2 c lei = (st2, .deadHub)) ∧
      (∀ cs ev, Publish st2 cs ev = none) ∧
      (∀ cs m, PublishComment st2 cs m = none) ∧
      (∀ c r, Register st2 c r = none) ∧
      (∀ c, CloseChannel st2 c = none) ∧
      (∀ id, Unregister st2 id = none) ∧
      Close st2 = none ∧
      runUnregisterStep st2 = none :=
  C3_shutdown stC3w_reachable rfl

end Eventsource
